import Mathlib

/-!
Verification of the core utilities of the percy-cli client
(src/packages/client/src/utils.js): the concurrency pool, the retry
engine, and the HTTP request orchestrator helpers (body normalization,
response decoding, error classification, idempotent error handling).
Each JavaScript function is shallowly embedded as an executable Lean
definition; the claims about the specification are settled as theorems
over these definitions.
-/

/-! ## JSON values and the modelled JSON builtins

The source calls the JavaScript builtins JSON.parse and JSON.stringify,
which are external to the repository.  They are modelled here by an
executable recursive-descent parser and printer over an inductive JSON
value type (numbers restricted to integers, string escapes restricted to
the common ones); the claims depend only on whether parsing succeeds,
never on numeric or escape edge cases. -/

inductive JVal where
  | null
  | bool (b : Bool)
  | num (n : Int)
  | str (s : String)
  | arr (xs : List JVal)
  | obj (kvs : List (String × JVal))

def qChar : Char := Char.ofNat 34

def bsChar : Char := Char.ofNat 92

def lbChar : Char := Char.ofNat 123

def rbChar : Char := Char.ofNat 125

def isWsChar (c : Char) : Bool :=
  (c == ' ') || (c == Char.ofNat 9) || (c == Char.ofNat 10) || (c == Char.ofNat 13)

def skipWs : List Char → List Char
  | [] => []
  | c :: cs => if isWsChar c then skipWs cs else c :: cs

def digitsToNat (ds : List Char) : Nat :=
  ds.foldl (fun a c => a * 10 + (c.toNat - 48)) 0

def parseNum (cs : List Char) : Option (Int × List Char) :=
  let p : Bool × List Char :=
    match cs with
    | c :: rest => if c == '-' then (true, rest) else (false, cs)
    | [] => (false, cs)
  let ds := p.2.takeWhile Char.isDigit
  let rest := p.2.dropWhile Char.isDigit
  if ds.isEmpty then none
  else some ((if p.1 then -(digitsToNat ds : Int) else (digitsToNat ds : Int)), rest)

def parseStrBody : List Char → Option (List Char × List Char)
  | [] => none
  | c :: cs =>
    if c == qChar then some ([], cs)
    else if c == bsChar then
      match cs with
      | [] => none
      | e :: cs2 =>
        let dec : Option Char :=
          if e == qChar then some qChar
          else if e == bsChar then some bsChar
          else if e == '/' then some '/'
          else if e == 'n' then some (Char.ofNat 10)
          else if e == 't' then some (Char.ofNat 9)
          else if e == 'r' then some (Char.ofNat 13)
          else none
        match dec with
        | none => none
        | some d =>
          match parseStrBody cs2 with
          | none => none
          | some (out, rest) => some (d :: out, rest)
    else
      match parseStrBody cs with
      | none => none
      | some (out, rest) => some (c :: out, rest)

mutual

def parseVal : Nat → List Char → Option (JVal × List Char)
  | 0, _ => none
  | fu + 1, cs0 =>
    let cs := skipWs cs0
    match cs with
    | [] => none
    | c :: rest =>
      if c == qChar then
        match parseStrBody rest with
        | some (out, r2) => some (JVal.str (String.mk out), r2)
        | none => none
      else if c == lbChar then
        match skipWs rest with
        | c2 :: r2 => if c2 == rbChar then some (JVal.obj [], r2)
                      else
                        match parseObjItems fu (skipWs rest) with
                        | some (kvs, r3) => some (JVal.obj kvs, r3)
                        | none => none
        | [] => none
      else if c == '[' then
        match skipWs rest with
        | c2 :: r2 => if c2 == ']' then some (JVal.arr [], r2)
                      else
                        match parseArrItems fu (skipWs rest) with
                        | some (vs, r3) => some (JVal.arr vs, r3)
                        | none => none
        | [] => none
      else if c == 'n' then
        if cs.take 4 == ['n', 'u', 'l', 'l'] then some (JVal.null, cs.drop 4) else none
      else if c == 't' then
        if cs.take 4 == ['t', 'r', 'u', 'e'] then some (JVal.bool true, cs.drop 4) else none
      else if c == 'f' then
        if cs.take 5 == ['f', 'a', 'l', 's', 'e'] then some (JVal.bool false, cs.drop 5)
        else none
      else
        match parseNum cs with
        | some (n, r2) => some (JVal.num n, r2)
        | none => none

def parseArrItems : Nat → List Char → Option (List JVal × List Char)
  | 0, _ => none
  | fu + 1, cs =>
    match parseVal fu cs with
    | none => none
    | some (v, r) =>
      match skipWs r with
      | c :: r3 =>
        if c == ',' then
          match parseArrItems fu (skipWs r3) with
          | some (vs, r4) => some (v :: vs, r4)
          | none => none
        else if c == ']' then some ([v], r3)
        else none
      | [] => none

def parseObjItems : Nat → List Char → Option (List (String × JVal) × List Char)
  | 0, _ => none
  | fu + 1, cs =>
    match cs with
    | c :: r1 =>
      if c == qChar then
        match parseStrBody r1 with
        | none => none
        | some (k, r2) =>
          match skipWs r2 with
          | c2 :: r3 =>
            if c2 == ':' then
              match parseVal fu (skipWs r3) with
              | none => none
              | some (v, r4) =>
                match skipWs r4 with
                | c3 :: r5 =>
                  if c3 == ',' then
                    match parseObjItems fu (skipWs r5) with
                    | some (kvs, r6) => some ((String.mk k, v) :: kvs, r6)
                    | none => none
                  else if c3 == rbChar then some ([(String.mk k, v)], r5)
                  else none
                | [] => none
            else none
          | [] => none
      else none
    | [] => none

end

/-- Model of the JavaScript builtin JSON.parse: parse the whole string as
one JSON value, allowing surrounding whitespace, and fail otherwise. -/
def jsonParse (s : String) : Option JVal :=
  let cs := s.toList
  match parseVal (cs.length + 1) cs with
  | some (v, rest) => if (skipWs rest).isEmpty then some v else none
  | none => none

def escapeChar (c : Char) : List Char :=
  if c == qChar then [bsChar, qChar]
  else if c == bsChar then [bsChar, bsChar]
  else if c == Char.ofNat 10 then [bsChar, 'n']
  else if c == Char.ofNat 9 then [bsChar, 't']
  else if c == Char.ofNat 13 then [bsChar, 'r']
  else [c]

mutual

/-- Model of the JavaScript builtin JSON.stringify on the JSON values above. -/
def jsonStringify : JVal → String
  | JVal.null => "null"
  | JVal.bool true => "true"
  | JVal.bool false => "false"
  | JVal.num n => toString n
  | JVal.str s =>
      String.mk (qChar :: (s.toList.foldr (fun c acc => escapeChar c ++ acc) [qChar]))
  | JVal.arr xs => "[" ++ stringifyList xs ++ "]"
  | JVal.obj kvs => String.mk [lbChar] ++ stringifyPairs kvs ++ String.mk [rbChar]

def stringifyList : List JVal → String
  | [] => ""
  | [x] => jsonStringify x
  | x :: y :: xs => jsonStringify x ++ "," ++ stringifyList (y :: xs)

def stringifyPairs : List (String × JVal) → String
  | [] => ""
  | [(k, v)] => jsonStringify (JVal.str k) ++ ":" ++ jsonStringify v
  | (k, v) :: q :: kvs =>
      jsonStringify (JVal.str k) ++ ":" ++ jsonStringify v ++ "," ++ stringifyPairs (q :: kvs)

end

/-! ## Response body decoding (handleFinished in request)

The source, given the accumulated response bytes, does:
  let raw = body.toString(utf-8);
  if (buffer !== true) body = raw;
  try body = JSON.parse(raw); catch then keep body;
The decoded body is therefore one of: the original bytes, the raw text,
or a parsed JSON value.  Bytes are modelled by their utf-8 text content,
which is all the decode logic inspects. -/

inductive Decoded where
  | buf (raw : String)
  | text (raw : String)
  | json (j : JVal)

/-- Embedding of the body-decoding steps of handleFinished in
src/packages/client/src/utils.js: start from the byte buffer, replace it
with the raw text unless buffer is exactly true, then overwrite with the
parse result whenever JSON.parse succeeds. -/
def decodeBody (buffer : Bool) (raw : String) : Decoded :=
  let body := if buffer = true then Decoded.buf raw else Decoded.text raw
  match jsonParse raw with
  | some j => Decoded.json j
  | none => body

def isStructuredData : Decoded → Bool
  | Decoded.json _ => true
  | _ => false

/-! ## Error classification (handleError in request) -/

/-- Embedding of the module constant RETRY_ERROR_CODES in
src/packages/client/src/utils.js. -/
def RETRY_ERROR_CODES : List String :=
  [("ECONNREFUSED"), ("ECONNRESET"), ("EPIPE"), ("EHOSTUNREACH"), ("EAI_AGAIN")]

/-- The part of a response envelope that classification inspects. -/
structure ResponseInfo where
  statusCode : Nat
deriving DecidableEq

/-- A classified error: an optional attached response envelope and an
optional transport error code (absent or empty modelled as falsy). -/
structure ErrInfo where
  response : Option ResponseInfo := none
  code : Option String := none
deriving DecidableEq

/-- Embedding of the shouldRetry computation of handleError:
if a response is attached, retry on 404 when retryNotFound is set, or on
any status in the range 500 to 599; otherwise retry exactly when the
error carries a truthy code listed in RETRY_ERROR_CODES. -/
def shouldRetryErr (retryNotFound : Bool) (e : ErrInfo) : Bool :=
  match e.response with
  | some r =>
      (retryNotFound && decide (r.statusCode = 404)) ||
      (decide (500 ≤ r.statusCode) && decide (r.statusCode < 600))
  | none =>
      match e.code with
      | some c => (!(c == "")) && (RETRY_ERROR_CODES.contains c)
      | none => false

inductive HAction where
  | retryAct (e : ErrInfo)
  | rejectAct (e : ErrInfo)
deriving DecidableEq

/-- Embedding of the final line of handleError: either hand the error to
the retry signal or reject the promise of the current attempt with it. -/
def handleErrorAction (retryNotFound : Bool) (e : ErrInfo) : HAction :=
  if shouldRetryErr retryNotFound e then HAction.retryAct e else HAction.rejectAct e

/-- Embedding of one invocation of handleError including its guard:
if handleError.handled is already set the invocation is a no-op,
otherwise the flag is set and the error is classified and acted on. -/
def handleErrorStep (retryNotFound : Bool) (handled : Bool) (e : ErrInfo) :
    Bool × Option HAction :=
  if handled then (handled, none)
  else (true, some (handleErrorAction retryNotFound e))

/-- One event-source invocation folded into the attempt state: the guard
flag together with the actions taken so far. -/
def handleErrorsStep (retryNotFound : Bool) (acc : Bool × List HAction) (e : ErrInfo) :
    Bool × List HAction :=
  let st := handleErrorStep retryNotFound acc.1 e
  (st.1, acc.2 ++ st.2.toList)

/-- A sequence of handleError invocations within one attempt, starting
from the fresh (unset) guard, collecting the actions taken. -/
def handleErrorsRun (retryNotFound : Bool) (es : List ErrInfo) : Bool × List HAction :=
  es.foldl (handleErrorsStep retryNotFound) (false, [])

/-! ## Body and header normalization (request) -/

/-- A request body option value: either already text, or structured data
that the orchestrator must serialize. -/
inductive BodyVal where
  | str (s : String)
  | data (j : JVal)

/-- Embedding of the object literal containing Content-Type
application/json spread with the caller headers: with JavaScript object
semantics the caller entry wins exactly when it uses the identical key
string, otherwise the default pair is added. -/
def withDefaultContentType (hs : List (String × String)) : List (String × String) :=
  if hs.any (fun q => q.1 == ("Content-Type")) then hs
  else (("Content-Type"), ("application/json")) :: hs

def lookupHeader (hs : List (String × String)) (k : String) : Option String :=
  match hs with
  | [] => none
  | p :: rest => if p.1 = k then some p.2 else lookupHeader rest k

/-- Embedding of the body normalization step of request: when a body is
present and is not already a string, default the Content-Type header and
stringify the body; otherwise leave body and headers untouched. -/
def stringifyBody (b : Option BodyVal) (hs : List (String × String)) :
    Option BodyVal × List (String × String) :=
  match b with
  | some (BodyVal.data j) => (some (BodyVal.str (jsonStringify j)), withDefaultContentType hs)
  | _ => (b, hs)

/-! ## Argument normalization (request signature) -/

/-- The recognized request options, destructured at the top of request;
extra carries the remaining transport passthrough options. -/
structure ReqOptions where
  body : Option BodyVal := none
  headers : Option (List (String × String)) := none
  retries : Option Nat := none
  interval : Option Nat := none
  retryNotFound : Option Bool := none
  noProxy : Option Bool := none
  buffer : Option Bool := none
  extra : List (String × String) := []

/-- The second argument of request: either an options object or a
callback function. -/
inductive SecondArg (C : Type) where
  | opts (o : ReqOptions)
  | fn (f : C)

/-- Embedding of the argument normalization at the top of request: when
the second argument is a function it becomes the callback and the
options become the empty object, discarding any third argument. -/
def normalizeArgs {C : Type} : SecondArg C → Option C → ReqOptions × Option C
  | SecondArg.fn f, _ => (({} : ReqOptions), some f)
  | SecondArg.opts o, c => (o, c)

/-! ## Theorems for the orchestrator claims -/

theorem handleErrorAction_retry_iff (rnf : Bool) (e : ErrInfo) :
    handleErrorAction rnf e = HAction.retryAct e ↔ shouldRetryErr rnf e = true := by
  unfold handleErrorAction
  by_cases h : shouldRetryErr rnf e = true
  · simp [h]
  · simp [h]

theorem retry_code_ne_empty {c : String} (hc : c ∈ RETRY_ERROR_CODES) : (c == "") = false := by
  simp only [RETRY_ERROR_CODES, List.mem_cons, List.not_mem_nil, or_false] at hc
  rcases hc with rfl | rfl | rfl | rfl | rfl <;> rfl

/-- Claim C3: for every error raised during an attempt, if a response
envelope exists the attempt is retried exactly when retryNotFound is set
and the status is 404 or the status lies in the range 500 to 599; if no
envelope exists it is retried exactly when the error carries one of the
codes in RETRY_ERROR_CODES; in every other case the classified error is
rejected (surfaced immediately) without retry. -/
theorem request_C3_classification (rnf : Bool) (e : ErrInfo) :
    (∀ r, e.response = some r →
       (handleErrorAction rnf e = HAction.retryAct e ↔
          ((rnf = true ∧ r.statusCode = 404) ∨ (500 ≤ r.statusCode ∧ r.statusCode < 600)))) ∧
    (e.response = none →
       (handleErrorAction rnf e = HAction.retryAct e ↔
          (∃ c, e.code = some c ∧ c ∈ RETRY_ERROR_CODES))) ∧
    (handleErrorAction rnf e = HAction.retryAct e ∨
       handleErrorAction rnf e = HAction.rejectAct e) := by
  obtain ⟨resp, code⟩ := e
  refine ⟨?_, ?_, ?_⟩
  · rintro r rfl
    rw [handleErrorAction_retry_iff]
    simp [shouldRetryErr]
  · intro hr
    have hr2 : resp = none := hr
    subst hr2
    rw [handleErrorAction_retry_iff]
    cases code with
    | none => simp [shouldRetryErr]
    | some c =>
      show ((!(c == "")) && (RETRY_ERROR_CODES.contains c)) = true ↔ _
      constructor
      · intro h
        have h2 := (Bool.and_eq_true _ _).mp h
        have hmem : c ∈ RETRY_ERROR_CODES := by simpa [List.elem_iff] using h2.2
        exact ⟨c, rfl, hmem⟩
      · rintro ⟨c2, hc2, hmem⟩
        cases hc2
        have h1 : (!(c == "")) = true := by simp [retry_code_ne_empty hmem]
        have h2 : RETRY_ERROR_CODES.contains c = true := by
          simpa [List.elem_iff] using hmem
        exact (Bool.and_eq_true _ _).mpr ⟨h1, h2⟩
  · unfold handleErrorAction
    by_cases h : shouldRetryErr rnf (ErrInfo.mk resp code) = true
    · exact Or.inl (by simp [h])
    · exact Or.inr (by simp [h])

/-- Witness for claim C3, matching the spec examples: a transport error
with code ECONNREFUSED is retried and one with code EACCES is rejected
immediately. -/
theorem request_C3_witness :
    handleErrorAction false (ErrInfo.mk none (some ("ECONNREFUSED"))) =
      HAction.retryAct (ErrInfo.mk none (some ("ECONNREFUSED"))) ∧
    handleErrorAction false (ErrInfo.mk none (some ("EACCES"))) =
      HAction.rejectAct (ErrInfo.mk none (some ("EACCES"))) := by
  constructor
  · exact ((request_C3_classification false
      (ErrInfo.mk none (some ("ECONNREFUSED")))).2.1 rfl).2
      ⟨("ECONNREFUSED"), rfl, by simp [RETRY_ERROR_CODES]⟩
  · have h := request_C3_classification false (ErrInfo.mk none (some ("EACCES")))
    rcases h.2.2 with hr | hr
    · rcases (h.2.1 rfl).1 hr with ⟨c, hc, hmem⟩
      cases hc
      simp [RETRY_ERROR_CODES] at hmem
    · exact hr

/-- Claim C2, evaluated at the failing input: the claim (and the spec)
say that with buffer requested the decoded body is the raw bytes even
when the raw text is valid JSON, but in the code the JSON.parse attempt
is performed outside the buffer guard, so a buffered JSON body still
decodes to structured data.  The final conjunct states that the claimed
equivalence (structured data exactly when the text parses and buffering
was not requested) is false at this input. -/
theorem request_C2_buffer_bug :
    decodeBody true ("\x7b\"ok\":true\x7d") = Decoded.json (JVal.obj [("ok", JVal.bool true)]) ∧
    (jsonParse ("\x7b\"ok\":true\x7d")).isSome = true ∧
    ¬(isStructuredData (decodeBody true ("\x7b\"ok\":true\x7d")) = true ↔
        ((jsonParse ("\x7b\"ok\":true\x7d")).isSome = true ∧ true = false)) := by
  refine ⟨rfl, rfl, fun h => ?_⟩
  rcases h.mp rfl with ⟨-, h2⟩
  exact Bool.noConfusion h2

theorem lookupHeader_isSome_of_any {hs : List (String × String)} {k : String}
    (h : hs.any (fun q => q.1 == k) = true) : (lookupHeader hs k).isSome = true := by
  induction hs with
  | nil => simp at h
  | cons p rest ih =>
    simp only [List.any_cons, Bool.or_eq_true, beq_iff_eq] at h
    unfold lookupHeader
    by_cases hp : p.1 = k
    · simp [hp]
    · rcases h with h | h
      · exact absurd h hp
      · simpa [hp] using ih h

theorem lookupHeader_none_of_not_any {hs : List (String × String)} {k : String}
    (h : hs.any (fun q => q.1 == k) = false) : lookupHeader hs k = none := by
  induction hs with
  | nil => rfl
  | cons p rest ih =>
    simp only [List.any_cons, Bool.or_eq_false_iff, beq_eq_false_iff_ne] at h
    unfold lookupHeader
    simp only [if_neg h.1]
    exact ih h.2

theorem lookup_withDefaultContentType_self (hs : List (String × String)) :
    lookupHeader (withDefaultContentType hs) ("Content-Type") =
      some ((lookupHeader hs ("Content-Type")).getD ("application/json")) := by
  unfold withDefaultContentType
  by_cases h : hs.any (fun q => q.1 == ("Content-Type")) = true
  · rw [if_pos h]
    rcases Option.isSome_iff_exists.mp (lookupHeader_isSome_of_any h) with ⟨w, hw⟩
    rw [hw]
    rfl
  · rw [if_neg h]
    have hf : hs.any (fun q => q.1 == ("Content-Type")) = false := by
      rw [← Bool.not_eq_true]
      exact h
    rw [lookupHeader_none_of_not_any hf]
    show (if ("Content-Type" : String) = ("Content-Type") then some ("application/json")
        else lookupHeader hs ("Content-Type")) = some (Option.getD none ("application/json"))
    rw [if_pos rfl]
    rfl

theorem lookup_withDefaultContentType_other (hs : List (String × String)) (k : String)
    (hk : k ≠ ("Content-Type")) :
    lookupHeader (withDefaultContentType hs) k = lookupHeader hs k := by
  unfold withDefaultContentType
  by_cases h : hs.any (fun q => q.1 == ("Content-Type")) = true
  · rw [if_pos h]
  · rw [if_neg h]
    show (if ("Content-Type" : String) = k then some ("application/json")
        else lookupHeader hs k) = lookupHeader hs k
    rw [if_neg (fun hc => hk hc.symm)]

/-- Claim C7: a request body supplied as structured data is serialized
with the modelled JSON.stringify and the Content-Type header defaults to
the JSON media type without clobbering a caller-supplied Content-Type or
any other header, while a body supplied as text (or no body) passes
through with headers untouched. -/
theorem request_C7_body_serialization (b : Option BodyVal) (hs : List (String × String)) :
    (∀ j, b = some (BodyVal.data j) →
       (stringifyBody b hs).1 = some (BodyVal.str (jsonStringify j)) ∧
       lookupHeader (stringifyBody b hs).2 ("Content-Type") =
         some ((lookupHeader hs ("Content-Type")).getD ("application/json")) ∧
       (∀ k, k ≠ ("Content-Type") →
          lookupHeader (stringifyBody b hs).2 k = lookupHeader hs k)) ∧
    (∀ s, b = some (BodyVal.str s) → stringifyBody b hs = (b, hs)) ∧
    (b = none → stringifyBody b hs = (b, hs)) := by
  refine ⟨?_, ?_, ?_⟩
  · rintro j rfl
    refine ⟨rfl, ?_, ?_⟩
    · exact lookup_withDefaultContentType_self hs
    · intro k hk
      exact lookup_withDefaultContentType_other hs k hk
  · rintro s rfl
    rfl
  · rintro rfl
    rfl

/-- Witness for claim C7: a structured body with empty caller headers is
serialized and picks up the JSON Content-Type; a text body passes
through unchanged. -/
theorem request_C7_witness :
    (stringifyBody (some (BodyVal.data (JVal.obj [(("id"), JVal.num 1)]))) []).1 =
      some (BodyVal.str (jsonStringify (JVal.obj [(("id"), JVal.num 1)]))) ∧
    lookupHeader (stringifyBody (some (BodyVal.data (JVal.obj [(("id"), JVal.num 1)]))) []).2
      ("Content-Type") = some ("application/json") ∧
    stringifyBody (some (BodyVal.str ("done"))) [] = (some (BodyVal.str ("done")), []) := by
  have h := request_C7_body_serialization
    (some (BodyVal.data (JVal.obj [(("id"), JVal.num 1)]))) []
  have h1 := h.1 (JVal.obj [(("id"), JVal.num 1)]) rfl
  refine ⟨h1.1, ?_, ?_⟩
  · simpa using h1.2.1
  · exact (request_C7_body_serialization (some (BodyVal.str ("done"))) []).2.1 ("done") rfl

theorem handleErrorsStep_handled (rnf : Bool) (acc : Bool × List HAction) (e : ErrInfo)
    (h : acc.1 = true) : handleErrorsStep rnf acc e = acc := by
  obtain ⟨b, l⟩ := acc
  simp only at h
  subst h
  simp [handleErrorsStep, handleErrorStep]

theorem foldl_handleErrorsStep_handled (rnf : Bool) :
    ∀ es (l : List HAction),
      List.foldl (handleErrorsStep rnf) (true, l) es = (true, l) := by
  intro es
  induction es with
  | nil => intro l; rfl
  | cons e rest ih =>
    intro l
    rw [List.foldl_cons, handleErrorsStep_handled rnf (true, l) e rfl]
    exact ih l

/-- Claim C8: within a single attempt, a sequence of handleError
invocations (from any mix of event sources) produces exactly one
classification action, namely the one for the first error, and every
invocation made after the guard flag is set is a no-op. -/
theorem request_C8_handled_once (rnf : Bool) (e : ErrInfo) (rest : List ErrInfo) :
    (handleErrorsRun rnf (e :: rest)).2 = [handleErrorAction rnf e] ∧
    (∀ h2, handleErrorStep rnf true h2 = (true, none)) := by
  constructor
  · have h1 : handleErrorsStep rnf (false, []) e = (true, [handleErrorAction rnf e]) := rfl
    unfold handleErrorsRun
    rw [List.foldl_cons, h1, foldl_handleErrorsStep_handled]
  · intro h2
    rfl

/-- Claim C9: calling request with a function as the second argument
treats it as the response-transform callback with the empty options
object, identically to passing the empty options explicitly; the rest of
request is a function of the normalized pair, so the two call forms
behave identically. -/
theorem request_C9_callback_shorthand {C : Type} (f : C) (g : Option C) :
    normalizeArgs (SecondArg.fn f) g = (({} : ReqOptions), some f) ∧
    normalizeArgs (SecondArg.fn f) g =
      normalizeArgs (SecondArg.opts ({} : ReqOptions)) (some f) :=
  ⟨rfl, rfl⟩

/-! ## Retry engine (retry in utils.js)

The operation receives resolve, reject and retry callbacks and, per
attempt, invokes exactly one of them (the cooperative protocol of the
spec).  An operation is modelled as a function from the attempt index to
the signal it raises on that attempt.  The engine starts with the
configured budget (retries, default 5); a retry signal with positive
remaining budget schedules the next run after interval time units
(default 50), and with exhausted budget rejects with that last error. -/

inductive Attempt (V E : Type) where
  | resolve (v : V)
  | reject (e : E)
  | retrySig (e : E)

/-- Embedding of the run and retry closures of retry: returns the
settled value together with the index of the last attempt performed. -/
def retryGo {V E : Type} (f : Nat → Attempt V E) : Nat → Nat → Except E V × Nat
  | b, i =>
    match f i with
    | Attempt.resolve v => (Except.ok v, i)
    | Attempt.reject e => (Except.error e, i)
    | Attempt.retrySig e =>
      match b with
      | 0 => (Except.error e, i)
      | Nat.succ b2 => retryGo f b2 (i + 1)

/-- The options accepted by retry, both defaulted when absent. -/
structure RetryOpts where
  retries : Option Nat := none
  interval : Option Nat := none

/-- Embedding of retry fn opts: the settled outcome, the total number
of invocations of the operation, and the total time spent waiting
between attempts (one interval before every attempt after the first). -/
def retryModel {V E : Type} (f : Nat → Attempt V E) (o : RetryOpts) :
    Except E V × Nat × Nat :=
  let r := retryGo f (o.retries.getD 5) 0
  (r.1, r.2 + 1, r.2 * (o.interval.getD 50))

theorem retryGo_last_le {V E : Type} (f : Nat → Attempt V E) :
    ∀ b i, (retryGo f b i).2 ≤ i + b := by
  intro b
  induction b with
  | zero =>
    intro i
    unfold retryGo
    cases f i <;> simp
  | succ b2 ih =>
    intro i
    unfold retryGo
    cases f i with
    | resolve v => simp
    | reject e => simp
    | retrySig e =>
      have := ih (i + 1)
      simp only
      omega

theorem retryGo_exhaust {V E : Type} (f : Nat → Attempt V E) (es : Nat → E) :
    ∀ b i, (∀ j, i ≤ j → j ≤ i + b → f j = Attempt.retrySig (es j)) →
      retryGo f b i = (Except.error (es (i + b)), i + b) := by
  intro b
  induction b with
  | zero =>
    intro i h
    have hf := h i (Nat.le_refl i) (by omega)
    unfold retryGo
    rw [hf]
    rfl
  | succ b2 ih =>
    intro i h
    have hf := h i (Nat.le_refl i) (by omega)
    unfold retryGo
    rw [hf]
    have h2 : ∀ j, i + 1 ≤ j → j ≤ i + 1 + b2 → f j = Attempt.retrySig (es j) := by
      intro j hj1 hj2
      exact h j (by omega) (by omega)
    show retryGo f b2 (i + 1) = (Except.error (es (i + (b2 + 1))), i + (b2 + 1))
    rw [ih (i + 1) h2]
    have harith : i + 1 + b2 = i + (b2 + 1) := by omega
    rw [harith]

/-- Claim C4: for every operation and every retry budget R, the retry
engine invokes the operation at most R plus one times, exactly once when
R is zero; absent options default to retries five and interval fifty;
the total waiting time is one interval per attempt after the first; and
when the operation raises the retry signal on every attempt within the
budget, the engine performs exactly R plus one attempts and rejects with
the last error passed to the retry signal. -/
theorem retry_C4_bounds {V E : Type} (f : Nat → Attempt V E) (R I : Nat) :
    (retryModel f (RetryOpts.mk (some R) (some I))).2.1 ≤ R + 1 ∧
    (R = 0 → (retryModel f (RetryOpts.mk (some R) (some I))).2.1 = 1) ∧
    (∀ o : RetryOpts, o.retries = none → o.interval = none →
       retryModel f o = retryModel f (RetryOpts.mk (some 5) (some 50))) ∧
    (retryModel f (RetryOpts.mk (some R) (some I))).2.2 =
      ((retryModel f (RetryOpts.mk (some R) (some I))).2.1 - 1) * I ∧
    (∀ es : Nat → E, (∀ j, j ≤ R → f j = Attempt.retrySig (es j)) →
       retryModel f (RetryOpts.mk (some R) (some I)) =
         (Except.error (es R), R + 1, R * I)) := by
  refine ⟨?_, ?_, ?_, ?_, ?_⟩
  · have h := retryGo_last_le f R 0
    simp only [retryModel, Option.getD_some]
    omega
  · intro hR
    subst hR
    simp only [retryModel, Option.getD_some]
    unfold retryGo
    cases f 0 <;> rfl
  · intro o h1 h2
    obtain ⟨or, oi⟩ := o
    simp only at h1 h2
    subst h1
    subst h2
    rfl
  · simp only [retryModel, Option.getD_some]
    rw [Nat.add_sub_cancel]
  · intro es h
    have hgo := retryGo_exhaust f es R 0 (fun j hj1 hj2 => h j (by omega))
    simp [retryModel, Option.getD_some, hgo]

/-- Witness for claim C4: an operation that raises the retry signal on
every attempt, run with budget two and interval seven, is invoked three
times and rejected with the error of the final retry signal after
fourteen time units of waiting. -/
theorem retry_C4_witness :
    retryModel (fun j => Attempt.retrySig (j : Nat)) (RetryOpts.mk (some 2) (some 7)) =
      ((Except.error 2 : Except Nat Nat), 3, 14) ∧
    (retryModel (fun j => (Attempt.retrySig (j : Nat) : Attempt Nat Nat))
        (RetryOpts.mk (some 2) (some 7))).2.1 ≤ 3 := by
  have h := retry_C4_bounds (fun j => (Attempt.retrySig (j : Nat) : Attempt Nat Nat)) 2 7
  refine ⟨?_, h.1⟩
  have h5 := h.2.2.2.2 (fun j => j) (fun j hj => rfl)
  simpa using h5

/-! ## Concurrency pool (pool in utils.js)

The pool drains a generator of promises keeping at most N in flight.
The generator is modelled as the finite sequence of task indices 0 to
M-1 together with a fixed eventual outcome per task; the single-threaded
event loop is modelled by an explicit state plus two atomic transitions:
the synchronous proceed loop, and the settlement of one in-flight task
chosen by the scheduler (the completion handlers run proceed again).
The trace field is a ghost record of task outcomes in settlement order,
used to state which error surfaces. -/

deriving instance DecidableEq for Except

structure PState (V E : Type) where
  next : Nat
  pending : List Nat
  ret : List V
  err : Option E
  result : Option (Except E (List V))
  trace : List (Except E V)
deriving DecidableEq

/-- The value the promise settles with: reject with the latched error if
one exists, else resolve with the collected results (the source calls
reject first, so a latched error wins). -/
def settleValue {V E : Type} (s : PState V E) : Except E (List V) :=
  match s.err with
  | some e => Except.error e
  | none => Except.ok s.ret

/-- Embedding of the settlement lines of proceed: when no task is in
flight, settle the promise; a promise settles only once, so an already
settled result is kept. -/
def trySettle {V E : Type} (s : PState V E) : PState V E :=
  if s.pending.isEmpty then
    match s.result with
    | some _ => s
    | none => { s with result := some (settleValue s) }
  else s

/-- Embedding of the while loop of proceed, fuelled by the remaining
generator length (the loop pulls the iterator at most that often plus
one).  Each iteration first pulls the iterator (advancing next when the
generator is not yet exhausted), then checks done or a latched error
(settling if idle and returning), and otherwise starts the pulled task
and loops. -/
def proceedF {V E : Type} (M N : Nat) : Nat → PState V E → PState V E
  | 0, s => s
  | fuel + 1, s =>
    if s.pending.length < N then
      if s.next < M then
        if s.err.isSome then
          trySettle { s with next := s.next + 1 }
        else
          proceedF M N fuel { s with next := s.next + 1, pending := s.pending ++ [s.next] }
      else
        trySettle s
    else s

def proceed {V E : Type} (M N : Nat) (s : PState V E) : PState V E :=
  proceedF M N (M - s.next + 1) s

/-- Embedding of the completion handlers attached to a started promise:
the scheduler picks the in-flight task at position pos; its handler
decrements the in-flight count, appends the value on success or
overwrites the error latch on failure, and runs proceed again. -/
def settleTask {V E : Type} (M N : Nat) (o : Nat → Except E V) (s : PState V E)
    (pos : Nat) : PState V E :=
  match s.pending[pos]? with
  | none => s
  | some t =>
    let p2 := s.pending.eraseIdx pos
    match o t with
    | Except.ok v =>
        proceed M N
          { s with pending := p2, ret := s.ret ++ [v], trace := s.trace ++ [Except.ok v] }
    | Except.error e =>
        proceed M N
          { s with pending := p2, err := some e, trace := s.trace ++ [Except.error e] }

def poolInit {V E : Type} : PState V E :=
  PState.mk 0 [] [] none none []

/-- The state after the initial synchronous call to proceed. -/
def poolStart {V E : Type} (M N : Nat) : PState V E :=
  proceed M N poolInit

/-- A whole pool run: the initial proceed followed by the settlement
steps the scheduler chooses (each entry picks a position in the pending
list; an invalid position is a no-op). -/
def runPool {V E : Type} (M N : Nat) (o : Nat → Except E V) (choices : List Nat) :
    PState V E :=
  choices.foldl (settleTask M N o) (poolStart M N)

/-- The last error in a settlement-order trace. -/
def lastErrOf {V E : Type} (tr : List (Except E V)) : Option E :=
  (tr.filterMap (fun x =>
    match x with
    | Except.error e => some e
    | Except.ok _ => none)).getLast?

/-! ## Pool lemmas -/

theorem trySettle_next {V E : Type} (s : PState V E) : (trySettle s).next = s.next := by
  unfold trySettle
  by_cases h : s.pending.isEmpty
  · rw [if_pos h]; cases s.result <;> rfl
  · rw [if_neg h]

theorem trySettle_pending {V E : Type} (s : PState V E) : (trySettle s).pending = s.pending := by
  unfold trySettle
  by_cases h : s.pending.isEmpty
  · rw [if_pos h]; cases s.result <;> rfl
  · rw [if_neg h]

theorem trySettle_ret {V E : Type} (s : PState V E) : (trySettle s).ret = s.ret := by
  unfold trySettle
  by_cases h : s.pending.isEmpty
  · rw [if_pos h]; cases s.result <;> rfl
  · rw [if_neg h]

theorem trySettle_err {V E : Type} (s : PState V E) : (trySettle s).err = s.err := by
  unfold trySettle
  by_cases h : s.pending.isEmpty
  · rw [if_pos h]; cases s.result <;> rfl
  · rw [if_neg h]

theorem trySettle_trace {V E : Type} (s : PState V E) : (trySettle s).trace = s.trace := by
  unfold trySettle
  by_cases h : s.pending.isEmpty
  · rw [if_pos h]; cases s.result <;> rfl
  · rw [if_neg h]

theorem trySettle_result {V E : Type} (s : PState V E) (h : s.result = none) :
    (trySettle s).result = none ∨
      ((trySettle s).result = some (settleValue s) ∧ (trySettle s).pending = []) := by
  unfold trySettle
  by_cases hp : s.pending.isEmpty
  · rw [if_pos hp, h]
    right
    refine ⟨rfl, ?_⟩
    exact List.isEmpty_iff.mp hp
  · rw [if_neg hp]
    left
    exact h

theorem proceedF_err {V E : Type} (M N : Nat) :
    ∀ fu (s : PState V E), (proceedF M N fu s).err = s.err := by
  intro fu
  induction fu with
  | zero => intro s; rfl
  | succ fu ih =>
    intro s
    unfold proceedF
    by_cases h1 : s.pending.length < N
    · rw [if_pos h1]
      by_cases h2 : s.next < M
      · rw [if_pos h2]
        by_cases h3 : s.err.isSome
        · rw [if_pos h3, trySettle_err]
        · rw [if_neg h3, ih]
      · rw [if_neg h2, trySettle_err]
    · rw [if_neg h1]

theorem proceedF_ret {V E : Type} (M N : Nat) :
    ∀ fu (s : PState V E), (proceedF M N fu s).ret = s.ret := by
  intro fu
  induction fu with
  | zero => intro s; rfl
  | succ fu ih =>
    intro s
    unfold proceedF
    by_cases h1 : s.pending.length < N
    · rw [if_pos h1]
      by_cases h2 : s.next < M
      · rw [if_pos h2]
        by_cases h3 : s.err.isSome
        · rw [if_pos h3, trySettle_ret]
        · rw [if_neg h3, ih]
      · rw [if_neg h2, trySettle_ret]
    · rw [if_neg h1]

theorem proceedF_trace {V E : Type} (M N : Nat) :
    ∀ fu (s : PState V E), (proceedF M N fu s).trace = s.trace := by
  intro fu
  induction fu with
  | zero => intro s; rfl
  | succ fu ih =>
    intro s
    unfold proceedF
    by_cases h1 : s.pending.length < N
    · rw [if_pos h1]
      by_cases h2 : s.next < M
      · rw [if_pos h2]
        by_cases h3 : s.err.isSome
        · rw [if_pos h3, trySettle_trace]
        · rw [if_neg h3, ih]
      · rw [if_neg h2, trySettle_trace]
    · rw [if_neg h1]

theorem proceedF_pending_le {V E : Type} (M N : Nat) :
    ∀ fu (s : PState V E), s.pending.length ≤ N →
      (proceedF M N fu s).pending.length ≤ N := by
  intro fu
  induction fu with
  | zero => intro s h; exact h
  | succ fu ih =>
    intro s h
    unfold proceedF
    by_cases h1 : s.pending.length < N
    · rw [if_pos h1]
      by_cases h2 : s.next < M
      · rw [if_pos h2]
        by_cases h3 : s.err.isSome
        · rw [if_pos h3, trySettle_pending]
          exact h
        · rw [if_neg h3]
          refine ih _ ?_
          show (s.pending ++ [s.next]).length ≤ N
          have hl : (s.pending ++ [s.next]).length = s.pending.length + 1 := by simp
          rw [hl]
          omega
      · rw [if_neg h2, trySettle_pending]
        exact h
    · rw [if_neg h1]
      exact h

theorem proceedF_result {V E : Type} (M N : Nat) :
    ∀ fu (s : PState V E), s.result = none →
      (proceedF M N fu s).result = none ∨
      ((proceedF M N fu s).result = some (settleValue s) ∧
        (proceedF M N fu s).pending = []) := by
  intro fu
  induction fu with
  | zero =>
    intro s h
    left
    exact h
  | succ fu ih =>
    intro s h
    unfold proceedF
    by_cases h1 : s.pending.length < N
    · rw [if_pos h1]
      by_cases h2 : s.next < M
      · rw [if_pos h2]
        by_cases h3 : s.err.isSome
        · rw [if_pos h3]
          exact trySettle_result { s with next := s.next + 1 } h
        · rw [if_neg h3]
          exact ih _ h
      · rw [if_neg h2]
        exact trySettle_result s h
    · rw [if_neg h1]
      left
      exact h

/-- The invariant of scheduler-visible pool states on an error-free run:
the generator position is bounded, pending tasks were all pulled, the
in-flight count respects the ceiling and the accounting equation, an
unsettled pool is either saturated or fully drained but still busy, and
a settled pool resolved with the collected results after exhausting the
generator with nothing in flight. -/
def SPost {V E : Type} (M N : Nat) (s : PState V E) : Prop :=
  s.next ≤ M ∧
  (∀ t ∈ s.pending, t < s.next) ∧
  s.pending.length ≤ N ∧
  s.ret.length + s.pending.length = s.next ∧
  (s.result = none → (s.pending.length = N ∨ (s.next = M ∧ s.pending ≠ []))) ∧
  (∀ r, s.result = some r → (r = Except.ok s.ret ∧ s.next = M ∧ s.pending = []))

theorem proceedF_spost {V E : Type} (M N : Nat) :
    ∀ fu (s : PState V E), M - s.next < fu → s.err = none → s.result = none →
      s.next ≤ M → (∀ t ∈ s.pending, t < s.next) → s.pending.length ≤ N →
      s.ret.length + s.pending.length = s.next →
      SPost M N (proceedF M N fu s) := by
  intro fu
  induction fu with
  | zero =>
    intro s hfu
    exact absurd hfu (Nat.not_lt_zero _)
  | succ fu ih =>
    intro s hfu herr hres hnext hbound hlen hcount
    unfold proceedF
    by_cases h1 : s.pending.length < N
    · rw [if_pos h1]
      by_cases h2 : s.next < M
      · rw [if_pos h2]
        have h3 : ¬(s.err.isSome = true) := by rw [herr]; simp
        rw [if_neg h3]
        apply ih
        · show M - (s.next + 1) < fu
          omega
        · exact herr
        · exact hres
        · show s.next + 1 ≤ M
          omega
        · show ∀ t ∈ s.pending ++ [s.next], t < s.next + 1
          intro t ht
          rcases List.mem_append.mp ht with ht2 | ht2
          · have := hbound t ht2
            omega
          · have : t = s.next := List.mem_singleton.mp ht2
            omega
        · show (s.pending ++ [s.next]).length ≤ N
          have hl : (s.pending ++ [s.next]).length = s.pending.length + 1 := by simp
          omega
        · show s.ret.length + (s.pending ++ [s.next]).length = s.next + 1
          have hl : (s.pending ++ [s.next]).length = s.pending.length + 1 := by simp
          omega
      · rw [if_neg h2]
        have hM : s.next = M := by omega
        unfold trySettle
        by_cases hp : s.pending.isEmpty
        · rw [if_pos hp, hres]
          have hpnil : s.pending = [] := List.isEmpty_iff.mp hp
          have hsv : settleValue s = Except.ok s.ret := by
            unfold settleValue
            rw [herr]
          refine ⟨hnext, hbound, hlen, hcount, ?_, ?_⟩
          · intro hco
            exact absurd hco (by simp)
          · intro r hr
            have hr2 : some (settleValue s) = some r := hr
            have hr3 : r = settleValue s := (Option.some.inj hr2).symm
            rw [hr3, hsv]
            exact ⟨rfl, hM, hpnil⟩
        · rw [if_neg hp]
          refine ⟨hnext, hbound, hlen, hcount, ?_, ?_⟩
          · intro _
            right
            refine ⟨hM, ?_⟩
            intro hnil
            rw [hnil] at hp
            exact hp rfl
          · intro r hr
            rw [hres] at hr
            exact Option.noConfusion hr
    · rw [if_neg h1]
      have hlenN : s.pending.length = N := by omega
      refine ⟨hnext, hbound, hlen, hcount, fun _ => Or.inl hlenN, ?_⟩
      intro r hr
      rw [hres] at hr
      exact Option.noConfusion hr

theorem settleValue_eq {V E : Type} (s1 s2 : PState V E) (he : s1.err = s2.err)
    (hr : s1.ret = s2.ret) : settleValue s1 = settleValue s2 := by
  unfold settleValue
  rw [he, hr]

theorem lastErrOf_append_ok {V E : Type} (tr : List (Except E V)) (v : V) :
    lastErrOf (tr ++ [Except.ok v]) = lastErrOf tr := by
  unfold lastErrOf
  rw [List.filterMap_append]
  simp

theorem lastErrOf_append_error {V E : Type} (tr : List (Except E V)) (e : E) :
    lastErrOf (tr ++ [Except.error e]) = some e := by
  unfold lastErrOf
  rw [List.filterMap_append]
  show (_ ++ [e]).getLast? = some e
  exact List.getLast?_concat _

/-- The invariant of an error-free run: no error latched, plus SPost. -/
def SRunInv {V E : Type} (M N : Nat) (s : PState V E) : Prop :=
  s.err = none ∧ SPost M N s

theorem srun_start {V E : Type} (M N : Nat) : SRunInv M N (poolStart M N (V := V) (E := E)) := by
  constructor
  · show (proceedF M N (M - 0 + 1) poolInit).err = none
    rw [proceedF_err]
    rfl
  · exact proceedF_spost M N (M - 0 + 1) poolInit (Nat.lt_succ_self _) rfl rfl
      (Nat.zero_le _) (fun t ht => absurd ht (List.not_mem_nil t)) (Nat.zero_le _) rfl

theorem settleTask_srun {V E : Type} (M N : Nat) (o : Nat → Except E V)
    (hall : ∀ t, t < M → ∃ v, o t = Except.ok v) (s : PState V E) (pos : Nat)
    (hinv : SRunInv M N s) : SRunInv M N (settleTask M N o s pos) := by
  obtain ⟨herr, hnext, hbound, hlen, hcount, hresn, hress⟩ := hinv
  cases hsome : s.pending[pos]? with
  | none =>
    have hstep : settleTask M N o s pos = s := by
      simp only [settleTask, hsome]
    rw [hstep]
    exact ⟨herr, hnext, hbound, hlen, hcount, hresn, hress⟩
  | some t =>
    have hpos : pos < s.pending.length := (List.getElem?_eq_some.mp hsome).1
    have htmem : t ∈ s.pending := List.getElem?_mem hsome
    have htM : t < M := Nat.lt_of_lt_of_le (hbound t htmem) hnext
    obtain ⟨v, hv⟩ := hall t htM
    have hstep : settleTask M N o s pos = proceed M N
        { s with pending := s.pending.eraseIdx pos, ret := s.ret ++ [v], trace := s.trace ++ [Except.ok v] } := by
      simp only [settleTask, hsome, hv]
    rw [hstep]
    have hres : s.result = none := by
      cases hr : s.result with
      | none => rfl
      | some r =>
        have := (hress r hr).2.2
        rw [this] at hpos
        exact absurd hpos (by simp)
    have hplen : (s.pending.eraseIdx pos).length = s.pending.length - 1 :=
      List.length_eraseIdx_of_lt hpos
    have hlen1 : 1 ≤ s.pending.length := by omega
    constructor
    · show (proceedF M N _ _).err = none
      rw [proceedF_err]
      exact herr
    · apply proceedF_spost
      · exact Nat.lt_succ_self _
      · exact herr
      · exact hres
      · exact hnext
      · show ∀ t2 ∈ s.pending.eraseIdx pos, t2 < s.next
        intro t2 ht2
        exact hbound t2 (List.eraseIdx_subset _ _ ht2)
      · show (s.pending.eraseIdx pos).length ≤ N
        omega
      · show (s.ret ++ [v]).length + (s.pending.eraseIdx pos).length = s.next
        have hrl : (s.ret ++ [v]).length = s.ret.length + 1 := by simp
        omega

theorem srun_run {V E : Type} (M N : Nat) (o : Nat → Except E V)
    (hall : ∀ t, t < M → ∃ v, o t = Except.ok v) (cs : List Nat) :
    SRunInv M N (runPool M N o cs) := by
  unfold runPool
  induction cs using List.reverseRecOn with
  | nil => exact srun_start M N
  | append_singleton cs2 pos ih =>
    rw [List.foldl_append]
    exact settleTask_srun M N o hall _ pos ih

/-- The invariant of every pool run, failing or not: the in-flight count
respects the ceiling, the error latch holds the last error in settlement
order, and a settled pool has nothing in flight and settled with the
latch-determined value. -/
def GInv {V E : Type} (M N : Nat) (s : PState V E) : Prop :=
  s.pending.length ≤ N ∧
  s.err = lastErrOf s.trace ∧
  (∀ r, s.result = some r → (s.pending = [] ∧ r = settleValue s))

theorem proceed_err {V E : Type} (M N : Nat) (s : PState V E) :
    (proceed M N s).err = s.err :=
  proceedF_err M N _ s

theorem proceed_ret {V E : Type} (M N : Nat) (s : PState V E) :
    (proceed M N s).ret = s.ret :=
  proceedF_ret M N _ s

theorem proceed_trace {V E : Type} (M N : Nat) (s : PState V E) :
    (proceed M N s).trace = s.trace :=
  proceedF_trace M N _ s

theorem proceed_pending_le {V E : Type} (M N : Nat) (s : PState V E)
    (h : s.pending.length ≤ N) : (proceed M N s).pending.length ≤ N :=
  proceedF_pending_le M N _ s h

theorem proceed_result {V E : Type} (M N : Nat) (s : PState V E) (h : s.result = none) :
    (proceed M N s).result = none ∨
      ((proceed M N s).result = some (settleValue s) ∧ (proceed M N s).pending = []) :=
  proceedF_result M N _ s h

theorem ginv_start {V E : Type} (M N : Nat) : GInv M N (poolStart M N (V := V) (E := E)) := by
  refine ⟨?_, ?_, ?_⟩
  · exact proceed_pending_le M N poolInit (Nat.zero_le _)
  · show (proceed M N poolInit).err = lastErrOf (proceed M N poolInit).trace
    rw [proceed_err, proceed_trace]
    rfl
  · intro r hr
    have hr2 : (proceed M N (poolInit (V := V) (E := E))).result = some r := hr
    rcases proceed_result M N poolInit rfl with hc | hc
    · rw [hr2] at hc
      exact Option.noConfusion hc
    · have h1 := hc.1
      rw [hr2] at h1
      have hrr : r = settleValue (poolInit (V := V) (E := E)) := Option.some.inj h1
      refine ⟨hc.2, ?_⟩
      show r = settleValue (proceed M N poolInit)
      rw [hrr]
      exact (settleValue_eq _ _ (proceed_err M N _) (proceed_ret M N _)).symm

theorem settleTask_ginv {V E : Type} (M N : Nat) (o : Nat → Except E V)
    (s : PState V E) (pos : Nat) (hinv : GInv M N s) :
    GInv M N (settleTask M N o s pos) := by
  obtain ⟨hlen, htrace, hres⟩ := hinv
  cases hsome : s.pending[pos]? with
  | none =>
    have hstep : settleTask M N o s pos = s := by
      simp only [settleTask, hsome]
    rw [hstep]
    exact ⟨hlen, htrace, hres⟩
  | some t =>
    have hpos : pos < s.pending.length := (List.getElem?_eq_some.mp hsome).1
    have hresn : s.result = none := by
      cases hr : s.result with
      | none => rfl
      | some r =>
        have := (hres r hr).1
        rw [this] at hpos
        exact absurd hpos (by simp)
    have hplen : (s.pending.eraseIdx pos).length = s.pending.length - 1 :=
      List.length_eraseIdx_of_lt hpos
    cases hv : o t with
    | ok v =>
      set s2 : PState V E := { s with pending := s.pending.eraseIdx pos, ret := s.ret ++ [v], trace := s.trace ++ [Except.ok v] } with hs2
      have hstep : settleTask M N o s pos = proceed M N s2 := by
        simp only [settleTask, hsome, hv]
      rw [hstep]
      have hres2 : s2.result = none := hresn
      refine ⟨?_, ?_, ?_⟩
      · apply proceed_pending_le
        show (s.pending.eraseIdx pos).length ≤ N
        omega
      · rw [proceed_err, proceed_trace]
        show s.err = lastErrOf (s.trace ++ [Except.ok v])
        rw [lastErrOf_append_ok]
        exact htrace
      · intro r hr
        rcases proceed_result M N s2 hres2 with hc | hc
        · rw [hr] at hc
          exact Option.noConfusion hc
        · have h1 := hc.1
          rw [hr] at h1
          have hrr : r = settleValue s2 := Option.some.inj h1
          refine ⟨hc.2, ?_⟩
          rw [hrr]
          exact (settleValue_eq _ _ (proceed_err M N s2) (proceed_ret M N s2)).symm
    | error e =>
      set s2 : PState V E := { s with pending := s.pending.eraseIdx pos, err := some e, trace := s.trace ++ [Except.error e] } with hs2
      have hstep : settleTask M N o s pos = proceed M N s2 := by
        simp only [settleTask, hsome, hv]
      rw [hstep]
      have hres2 : s2.result = none := hresn
      refine ⟨?_, ?_, ?_⟩
      · apply proceed_pending_le
        show (s.pending.eraseIdx pos).length ≤ N
        omega
      · rw [proceed_err, proceed_trace]
        show some e = lastErrOf (s.trace ++ [Except.error e])
        rw [lastErrOf_append_error]
      · intro r hr
        rcases proceed_result M N s2 hres2 with hc | hc
        · rw [hr] at hc
          exact Option.noConfusion hc
        · have h1 := hc.1
          rw [hr] at h1
          have hrr : r = settleValue s2 := Option.some.inj h1
          refine ⟨hc.2, ?_⟩
          rw [hrr]
          exact (settleValue_eq _ _ (proceed_err M N s2) (proceed_ret M N s2)).symm

theorem ginv_run {V E : Type} (M N : Nat) (o : Nat → Except E V) (cs : List Nat) :
    GInv M N (runPool M N o cs) := by
  unfold runPool
  induction cs using List.reverseRecOn with
  | nil => exact ginv_start M N
  | append_singleton cs2 pos ih =>
    rw [List.foldl_append]
    exact settleTask_ginv M N o _ pos ih

theorem settleTask_of_nil {V E : Type} (M N : Nat) (o : Nat → Except E V)
    (s : PState V E) (pos : Nat) (h : s.pending = []) : settleTask M N o s pos = s := by
  have hnone : s.pending[pos]? = none := by
    rw [h]
    rfl
  simp only [settleTask, hnone]

theorem foldl_settleTask_of_nil {V E : Type} (M N : Nat) (o : Nat → Except E V)
    (s : PState V E) (h : s.pending = []) :
    ∀ ex : List Nat, List.foldl (settleTask M N o) s ex = s := by
  intro ex
  induction ex with
  | nil => rfl
  | cons pos rest ih =>
    rw [List.foldl_cons, settleTask_of_nil M N o s pos h]
    exact ih

theorem proceed_step {V E : Type} (M N : Nat) (s : PState V E) :
    proceed M N s =
      if s.pending.length < N then
        if s.next < M then
          if s.err.isSome then trySettle { s with next := s.next + 1 }
          else proceedF M N (M - s.next)
            { s with next := s.next + 1, pending := s.pending ++ [s.next] }
        else trySettle s
      else s := rfl

/-! ## Pool claim theorems -/

/-- Two tasks that both fail, with distinct errors, used to exhibit the
latch-overwrite behaviour of the pool. -/
def cexOut : Nat → Except Nat Nat :=
  fun t => if t = 0 then Except.error 10 else Except.error 20

/-- Tasks that all succeed with distinguishable values. -/
def okOut : Nat → Except Nat Nat :=
  fun t => Except.ok (t + 10)

/-- Claim C5: for every ceiling N of at least one and every finite task
count M, the in-flight count never exceeds N at any scheduler-visible
state of any run whatsoever, failing tasks included (it is a natural
number, hence also at least zero); and on a run where every task
succeeds, a completed (drained) run resolves with the collected
results, which number exactly M. -/
theorem pool_C5_bounded_complete {V E : Type} (M N : Nat) (o : Nat → Except E V)
    (hN : 1 ≤ N) :
    (∀ choices : List Nat, (runPool M N o choices).pending.length ≤ N) ∧
    ((∀ t, t < M → ∃ v, o t = Except.ok v) →
       ∀ choices : List Nat, (runPool M N o choices).pending = [] →
         (runPool M N o choices).result = some (Except.ok (runPool M N o choices).ret) ∧
         (runPool M N o choices).ret.length = M) := by
  constructor
  · intro cs
    exact (ginv_run M N o cs).1
  · intro hall cs hnil
    obtain ⟨herr, hnext, hbound, hlen2, hcount, hresn, hress⟩ := srun_run M N o hall cs
    cases hres : (runPool M N o cs).result with
    | none =>
      rcases hresn hres with hcase | hcase
      · rw [hnil] at hcase
        simp at hcase
        omega
      · exact absurd hnil hcase.2
    | some r =>
      obtain ⟨hr1, hr2, hr3⟩ := hress r hres
      constructor
      · rw [hr1]
      · have hzero : (runPool M N o cs).pending.length = 0 := by
          rw [hnil]
          rfl
        omega

/-- Witness for claim C5: the in-flight count respects the ceiling on a
concrete failing run, and three all-success tasks under ceiling two are
all collected once the run drains. -/
theorem pool_C5_witness :
    (runPool 2 2 cexOut [0]).pending.length ≤ 2 ∧
    (runPool 3 2 okOut [0, 0, 0]).result =
      some (Except.ok (runPool 3 2 okOut [0, 0, 0]).ret) ∧
    (runPool 3 2 okOut [0, 0, 0]).ret.length = 3 := by
  have hfail := pool_C5_bounded_complete 2 2 cexOut (by decide)
  have h := pool_C5_bounded_complete 3 2 okOut (by decide)
  exact ⟨hfail.1 [0], h.2 (fun t ht => ⟨t + 10, rfl⟩) [0, 0, 0] (by decide)⟩

/-- Claim C6: the pool future never settles while any task is in flight
(a settled state has an empty pending list), and the settled value is
final: exactly one outcome surfaces per pool invocation, no matter what
the scheduler does afterwards. -/
theorem pool_C6_settles_after_drain {V E : Type} (M N : Nat) (o : Nat → Except E V) :
    (∀ choices : List Nat, ∀ r, (runPool M N o choices).result = some r →
       (runPool M N o choices).pending = []) ∧
    (∀ choices extra : List Nat, ∀ r, (runPool M N o choices).result = some r →
       (runPool M N o (choices ++ extra)).result = some r) := by
  have hg : ∀ cs : List Nat, GInv M N (runPool M N o cs) := fun cs => ginv_run M N o cs
  constructor
  · intro cs r hr
    exact ((hg cs).2.2 r hr).1
  · intro cs ex r hr
    have hnil := ((hg cs).2.2 r hr).1
    show (List.foldl (settleTask M N o) (poolStart M N) (cs ++ ex)).result = some r
    rw [List.foldl_append]
    have hrun : List.foldl (settleTask M N o) (poolStart M N) cs = runPool M N o cs := rfl
    rw [hrun, foldl_settleTask_of_nil M N o _ hnil]
    exact hr

/-- Witness for claim C6: a fully drained failing run is settled with an
empty pending list, and extra scheduler steps do not change the settled
outcome. -/
theorem pool_C6_witness :
    (runPool 2 2 cexOut ([0, 0] ++ [5])).result = some (Except.error 20) ∧
    (runPool 2 2 cexOut [0, 0]).pending = [] := by
  have h := pool_C6_settles_after_drain 2 2 cexOut
  constructor
  · exact h.2 [0, 0] [5] (Except.error 20) (by decide)
  · exact h.1 [0, 0] (Except.error 20) (by decide)

/-- Counterexample to claim C1 as stated: with two concurrent tasks that
fail in settlement order error 10 then error 20, the pool future fails
with the second error, not the first; the first error is the one
swallowed. -/
theorem pool_C1_cex :
    (runPool 2 2 cexOut [0, 0]).trace = [Except.error 10, Except.error 20] ∧
    (runPool 2 2 cexOut [0, 0]).result = some (Except.error 20) ∧
    (runPool 2 2 cexOut [0, 0]).result ≠ some (Except.error 10) := by
  refine ⟨by decide, by decide, by decide⟩

/-- Claim C1 as amended: when a pool run fails, it fails with the last
error to occur in settlement order (each later failure overwrites the
latch and earlier errors are swallowed), regardless of submission
order. -/
theorem pool_C1_last_error {V E : Type} (M N : Nat) (o : Nat → Except E V)
    (choices : List Nat) (e : E)
    (h : (runPool M N o choices).result = some (Except.error e)) :
    lastErrOf (runPool M N o choices).trace = some e := by
  have hg := ginv_run M N o choices
  have h3 := (hg.2.2 _ h).2
  have herr : (runPool M N o choices).err = some e := by
    unfold settleValue at h3
    cases hcase : (runPool M N o choices).err with
    | none =>
      rw [hcase] at h3
      exact Except.noConfusion h3
    | some e2 =>
      rw [hcase] at h3
      have : e = e2 := Except.error.inj h3
      rw [this]
  rw [← hg.2.1]
  exact herr

/-- Witness for the amended claim C1: in the two-failure run the trace
ends with error 20 and the pool failed with exactly that error. -/
theorem pool_C1_last_error_witness :
    lastErrOf (runPool 2 2 cexOut [0, 0]).trace = some 20 :=
  pool_C1_last_error 2 2 cexOut [0, 0] 20 (by decide)

/-- Claim C10: once an error is latched, a drain step triggered by a
task settling still pulls one more value from the generator (next
advances when the generator is not exhausted) before the latched error
check returns, and the pulled task is discarded: nothing new is started,
the pending list only loses the settled task. -/
theorem pool_C10_pull_after_error {V E : Type} (M N : Nat) (o : Nat → Except E V)
    (s : PState V E) (pos : Nat) (hN : 1 ≤ N) (hq : s.pending.length ≤ N)
    (he : s.err.isSome = true) (hpos : pos < s.pending.length) :
    ((settleTask M N o s pos).next = if s.next < M then s.next + 1 else s.next) ∧
    (settleTask M N o s pos).pending = s.pending.eraseIdx pos := by
  have hsome : s.pending[pos]? = some (s.pending[pos]) := List.getElem?_eq_getElem hpos
  have hplen : (s.pending.eraseIdx pos).length = s.pending.length - 1 :=
    List.length_eraseIdx_of_lt hpos
  have hlt : (s.pending.eraseIdx pos).length < N := by omega
  cases hv : o (s.pending[pos]) with
  | ok v =>
    set s2 : PState V E := { s with pending := s.pending.eraseIdx pos, ret := s.ret ++ [v], trace := s.trace ++ [Except.ok v] } with hs2
    have hstep : settleTask M N o s pos = proceed M N s2 := by
      simp only [settleTask, hsome, hv]
    rw [hstep, proceed_step]
    rw [if_pos (show s2.pending.length < N from hlt)]
    have he2 : s2.err.isSome = true := he
    by_cases hm : s.next < M
    · rw [if_pos (show s2.next < M from hm), if_pos he2, if_pos hm]
      constructor
      · rw [trySettle_next]
      · rw [trySettle_pending]
    · rw [if_neg (show ¬(s2.next < M) from hm), if_neg hm]
      constructor
      · rw [trySettle_next]
      · rw [trySettle_pending]
  | error e =>
    set s2 : PState V E := { s with pending := s.pending.eraseIdx pos, err := some e, trace := s.trace ++ [Except.error e] } with hs2
    have hstep : settleTask M N o s pos = proceed M N s2 := by
      simp only [settleTask, hsome, hv]
    rw [hstep, proceed_step]
    rw [if_pos (show s2.pending.length < N from hlt)]
    have he2 : s2.err.isSome = true := rfl
    by_cases hm : s.next < M
    · rw [if_pos (show s2.next < M from hm), if_pos he2, if_pos hm]
      constructor
      · rw [trySettle_next]
      · rw [trySettle_pending]
    · rw [if_neg (show ¬(s2.next < M) from hm), if_neg hm]
      constructor
      · rw [trySettle_next]
      · rw [trySettle_pending]

/-- Witness for claim C10: with an error already latched and one task in
flight, settling that task advances the generator by one (the pulled
task is discarded) and starts nothing new. -/
theorem pool_C10_witness :
    (settleTask 3 2 cexOut (PState.mk 1 [0] [] (some 5) none []) 0).next = 2 ∧
    (settleTask 3 2 cexOut (PState.mk 1 [0] [] (some 5) none []) 0).pending = [] := by
  have h := pool_C10_pull_after_error 3 2 cexOut (PState.mk 1 [0] [] (some 5) none []) 0
    (by decide) (by decide) (by decide) (by decide)
  constructor
  · rw [h.1]
    decide
  · rw [h.2]
    rfl
